import Mathlib

set_option maxRecDepth 8192

namespace Watchfs

/-!
Shallow embedding of the watchfs event-driven action scheduler
(`sgreben/watchfs`): filters over filesystem events, action matching,
the per-action run pipeline, the named-lock registry, signal resolution
and delay canonicalisation, with theorems checking the natural-language
specification against the code.

Go strings are Lean `String`s; byte-level operations of the Go standard
library (`strings.ToLower`, `strings.TrimSpace`, `strings.TrimPrefix`,
`strings.Split`, `path/filepath.Ext`) are modelled character-wise on
`String.data`, with character tests written on `Char.toNat` (the code
points: 46 is a dot, 47 a path separator, 44 a comma).
-/

/-- Go `strings.ToLower`, character-wise (ASCII fragment: the code points
65–90 are the upper-case letters, shifted by 32 to lower case). -/
def goToLowerChar (c : Char) : Char :=
  if 65 ≤ c.toNat ∧ c.toNat ≤ 90 then Char.ofNat (c.toNat + 32) else c

/-- Go `strings.ToLower` on a whole string. -/
def goToLower (s : String) : String := String.mk (s.data.map goToLowerChar)

/-- Go `unicode.IsSpace` (ASCII fragment): space, tab, newline, vertical
tab, form feed, carriage return. -/
def goIsSpace (c : Char) : Bool :=
  decide (c.toNat = 32 ∨ c.toNat = 9 ∨ c.toNat = 10 ∨ c.toNat = 13 ∨ c.toNat = 11 ∨ c.toNat = 12)

/-- Go `strings.TrimSpace`: drop whitespace from both ends. -/
def goTrimSpace (s : String) : String :=
  String.mk (((s.data.dropWhile goIsSpace).reverse.dropWhile goIsSpace).reverse)

/-- Character-list core of Go `strings.TrimPrefix(s, ".")`. -/
def dropDotL : List Char → List Char
  | c :: rest => if c.toNat = 46 then rest else c :: rest
  | [] => []

/-- Go `strings.TrimPrefix(s, ".")`. -/
def trimDot (s : String) : String := String.mk (dropDotL s.data)

/-- Scan of Go `filepath.Ext`: the input is the reversed path; walk towards
the front until a path separator, collecting characters; the extension is
the suffix starting at the last dot (empty when there is none). -/
def extScan : List Char → List Char → List Char
  | [], _ => []
  | c :: rest, acc =>
    if c.toNat = 47 then []
    else if c.toNat = 46 then c :: acc
    else extScan rest (c :: acc)

/-- Go `filepath.Ext`. -/
def goFilepathExt (p : String) : String := String.mk (extScan p.data.reverse [])

/-- `ext` from `src/ext.go`: `strings.ToLower(strings.TrimPrefix(filepath.Ext(path), "."))`. -/
def ext (path : String) : String := goToLower (trimDot (goFilepathExt path))

/-- Character-list core of Go `strings.Split(s, ",")`. -/
def splitCommaL : List Char → List Char → List String
  | [], acc => [String.mk acc.reverse]
  | c :: rest, acc =>
    if c.toNat = 44 then String.mk acc.reverse :: splitCommaL rest []
    else splitCommaL rest (c :: acc)

/-- Go `strings.Split(s, ",")`. -/
def goSplitComma (s : String) : List String := splitCommaL s.data []

/-! ### fsnotify operations (`src/ops.go`)

`fsnotify.Op` is a bit mask; the named constants are the five single bits. -/

def fsCreate : Nat := 1
def fsWrite : Nat := 2
def fsRemove : Nat := 4
def fsRename : Nat := 8
def fsChmod : Nat := 16

/-- `parseOp` from `src/ops.go`: the map from operation names to `fsnotify.Op`. -/
def parseOp (s : String) : Option Nat :=
  if s = "create" then some fsCreate
  else if s = "write" then some fsWrite
  else if s = "remove" then some fsRemove
  else if s = "rename" then some fsRename
  else if s = "chmod" then some fsChmod
  else none

/-- `Event` from `src/event.go`: an fsnotify event with a timestamp. -/
structure Event where
  Name : String := ""
  Op : Nat := 0
  Time : String := ""
deriving DecidableEq

/-- `Filter` from `src/filter.go`. The user-facing fields keep their
source names; the code-facing maps `extensions : map[string]bool` and
`ops : map[fsnotify.Op]bool` are modelled as `Option` of a key list
(`none` is Go's nil map, membership is `List.contains`). -/
structure Filter where
  ExtensionsCSV : String := ""
  Extensions : List String := []
  OpsCSV : String := ""
  Ops : List String := []
  Watch : List String := []
  Paths : List String := []
  extensions : Option (List String) := none
  ops : Option (List Nat) := none
deriving DecidableEq

/-- Normalisation applied to one configured extension inside
`Filter.makeCanonical`: `TrimSpace`, then `TrimPrefix "."`, then `ToLower`. -/
def normalizeExt (e : String) : String := goToLower (trimDot (goTrimSpace e))

/-- `Filter.makeCanonical` from `src/filter.go`: fold `Watch` into `Paths`,
split the CSV fields, then build the code-facing extension and operation
maps. An operation name not in `parseOp` is skipped (`if op, ok :=
parseOp[opName]; ok`). -/
def Filter.makeCanonical (f : Filter) : Filter :=
  let f := { f with Paths := f.Paths ++ f.Watch, Watch := [] }
  let f := if f.ExtensionsCSV ≠ "" then
      { f with Extensions := f.Extensions ++ goSplitComma f.ExtensionsCSV, ExtensionsCSV := "" }
    else f
  let f := if f.OpsCSV ≠ "" then
      { f with Ops := f.Ops ++ goSplitComma f.OpsCSV, OpsCSV := "" }
    else f
  let f := if f.Extensions ≠ [] then
      { f with extensions := some (f.Extensions.map normalizeExt) }
    else f
  if f.Ops ≠ [] then
    { f with ops := some (f.Ops.filterMap (fun o => parseOp (goTrimSpace o))) }
  else f

/-- The `for _, path := range f.Paths` loop inside `Filter.Match`,
verbatim: when `filepath.Match(path, e.Name)` reports no match the loop
sets `pathsOK = true` and breaks — although `pathsOK` already starts
`true` whenever the loop runs, so the loop never changes it. `ok` is the
matcher's boolean result (its error return is discarded by the code). -/
def pathsLoop (ok : String → String → Bool) (name : String) : List String → Bool → Bool
  | [], acc => acc
  | p :: rest, acc => if !(ok p name) then true else pathsLoop ok name rest acc

/-- `Filter.Match` from `src/filter.go`. `fp` stands for the external
collaborator `filepath.Match`; `none` models a pattern error, in which Go
returns a `false` match. -/
def Filter.Match (fp : String → String → Option Bool) (f : Filter) (e : Event) : Bool × Bool :=
  let x := goToLower (ext e.Name)
  let extensionsOk := f.extensions.isSome && (f.extensions.getD []).contains x
  let opsOk := f.ops.isSome && (f.ops.getD []).contains e.Op
  let pathsOK0 : Bool := decide (f.Paths.length > 0)
  let pathsOK := if f.Paths.length > 0 then
      pathsLoop (fun p n => (fp p n).getD false) e.Name f.Paths pathsOK0
    else pathsOK0
  let empty := !f.extensions.isSome && !f.ops.isSome && decide (f.Paths.length = 0)
  let all := empty || (extensionsOk && opsOk && pathsOK)
  let any := extensionsOk || opsOk || pathsOK
  (all, any)

/-! ### Signals (`src/configuration.go`, `src/action.go`, `src/unnamed/part_000`) -/

/-- Modelled from the spec: the non-Windows signal table (`parseSignal`,
name → `os.Signal`) is not among the files under `src/` — only a
`+build windows` variant is — and §6 of the spec lists the recognised
names "SIGABRT … SIGXFSZ". Signal values are the usual Linux numbers
(`syscall.SIGHUP = 1`, `syscall.SIGKILL = 9`). -/
def parseSignal (s : String) : Option Nat :=
  if s = "SIGABRT" then some 6
  else if s = "SIGALRM" then some 14
  else if s = "SIGBUS" then some 7
  else if s = "SIGCHLD" then some 17
  else if s = "SIGCONT" then some 18
  else if s = "SIGFPE" then some 8
  else if s = "SIGHUP" then some 1
  else if s = "SIGILL" then some 4
  else if s = "SIGINT" then some 2
  else if s = "SIGIO" then some 29
  else if s = "SIGIOT" then some 6
  else if s = "SIGKILL" then some 9
  else if s = "SIGPIPE" then some 13
  else if s = "SIGPROF" then some 27
  else if s = "SIGQUIT" then some 3
  else if s = "SIGSEGV" then some 11
  else if s = "SIGSTOP" then some 19
  else if s = "SIGSYS" then some 31
  else if s = "SIGTERM" then some 15
  else if s = "SIGTRAP" then some 5
  else if s = "SIGTSTP" then some 20
  else if s = "SIGTTIN" then some 21
  else if s = "SIGTTOU" then some 22
  else if s = "SIGURG" then some 23
  else if s = "SIGUSR1" then some 10
  else if s = "SIGUSR2" then some 12
  else if s = "SIGVTALRM" then some 26
  else if s = "SIGWINCH" then some 28
  else if s = "SIGXCPU" then some 24
  else if s = "SIGXFSZ" then some 25
  else none

/-- `syscall.SIGHUP`. -/
def sigHUP : Nat := 1

/-- `defaultSignal = syscall.SIGKILL` from `src/unnamed/part_000`. -/
def defaultSignal : Nat := 9

/-- The signal-resolution step of `configuration.makeCanonical`
(`src/configuration.go` lines 38–42): `s, ok := parseSignal[c.Signal];
if !ok { s = syscall.SIGHUP }; c.signal = s`. -/
def configCanonSignal (sigName : String) : Nat :=
  match parseSignal sigName with
  | some s => s
  | none => sigHUP

/-! ### Action backends (`src/action.go`) -/

/-- The spawned external process of a backend run: `exec.Cmd` reduced to
the data the code puts into it. -/
structure Cmd where
  name : String
  args : List String
  env : List String
deriving DecidableEq

/-- `KEY=VALUE` environment entries built by `fmt.Sprintf("%s=%s", k, v)`. -/
def envPairs (l : List (String × String)) : List String :=
  l.map (fun kv => kv.1 ++ "=" ++ kv.2)

/-- `ActionHTTPGet` from `src/action.go`. -/
structure ActionHTTPGet where
  URL : String := ""
deriving DecidableEq

/-- `ActionExec` from `src/action.go`. The runtime field
`command *exec.Cmd` lives in `Run`'s result; `signal *os.Signal` is an
`Option`. -/
structure ActionExec where
  Command : List String := []
  Env : List (String × String) := []
  Signal : String := ""
  IgnoreSignals : Bool := false
  signal : Option Nat := none
deriving DecidableEq

/-- `ActionExec.makeCanonical`: only when the `signal` field of the
configuration is non-empty, resolve it, defaulting an unrecognised name
to `defaultSignal`. -/
def ActionExec.makeCanonical (a : ActionExec) : ActionExec :=
  if a.Signal ≠ "" then
    { a with signal := some ((parseSignal a.Signal).getD defaultSignal) }
  else a

/-- The signal `ActionExec.Notify` sends: `s := config.signal;
if a.signal != nil { s = *a.signal }`. -/
def ActionExec.notifySignal (cfgSignal : Nat) (a : ActionExec) : Nat :=
  match a.signal with
  | some s => s
  | none => cfgSignal

/-- `ActionExec.Run`. `runner` is the external collaborator executing
`a.command.Run()` (its error, `none` for success); `environ` is
`os.Environ()`; `cfgEnv` is `config.Env`. The result is the `command`
runtime field after the call (`none` when no process was set up) and the
returned error. -/
def ActionExec.Run (runner : Cmd → Option String) (environ : List String)
    (cfgEnv : List (String × String)) (a : ActionExec) : Option Cmd × Option String :=
  match a.Command with
  | [] => (none, none)
  | name :: args =>
    let env := if a.Env ≠ [] ∨ cfgEnv ≠ [] then environ ++ envPairs cfgEnv ++ envPairs a.Env
      else []
    let cmd : Cmd := ⟨name, args, env⟩
    (some cmd, runner cmd)

/-- `ActionShell` from `src/action.go`. -/
structure ActionShell where
  Command : String := ""
  Shell : List String := []
  Env : List (String × String) := []
  IgnoreSignals : Bool := false
  Signal : String := ""
  signal : Option Nat := none
deriving DecidableEq

/-- `ActionShell.makeCanonical`, identical to `ActionExec.makeCanonical`. -/
def ActionShell.makeCanonical (a : ActionShell) : ActionShell :=
  if a.Signal ≠ "" then
    { a with signal := some ((parseSignal a.Signal).getD defaultSignal) }
  else a

/-- The signal `ActionShell.Notify` sends. -/
def ActionShell.notifySignal (cfgSignal : Nat) (a : ActionShell) : Nat :=
  match a.signal with
  | some s => s
  | none => cfgSignal

/-- `ActionShell.Run`. `dShell`/`dShellArgs` stand for the repository
globals `defaultShell`/`defaultShellArgs` (their defining file is not
under `src/`; per the spec, "default shell and args supplied by the
environment"). -/
def ActionShell.Run (runner : Cmd → Option String) (environ : List String)
    (cfgEnv : List (String × String)) (dShell : String) (dShellArgs : List String)
    (a : ActionShell) : Option Cmd × Option String :=
  if a.Command = "" then (none, none)
  else
    let nameArgs : String × List String :=
      match a.Shell with
      | [] => (dShell, dShellArgs)
      | s :: rest => (s, if rest = [] then dShellArgs else rest)
    let args := nameArgs.2 ++ [a.Command]
    let env := if a.Env ≠ [] ∨ cfgEnv ≠ [] then environ ++ envPairs cfgEnv ++ envPairs a.Env
      else []
    let cmd : Cmd := ⟨nameArgs.1, args, env⟩
    (some cmd, runner cmd)

/-- `ActionDockerRun` from `src/action.go`, reduced to the fields the
claims touch (the argument assembly for the container runtime is out of
scope per §1 of the spec). -/
structure ActionDockerRun where
  Image : String := ""
  IgnoreSignals : Bool := false
  Signal : String := ""
  signal : Option Nat := none
deriving DecidableEq

/-- `ActionDockerRun.makeCanonical`, identical to `ActionExec.makeCanonical`. -/
def ActionDockerRun.makeCanonical (a : ActionDockerRun) : ActionDockerRun :=
  if a.Signal ≠ "" then
    { a with signal := some ((parseSignal a.Signal).getD defaultSignal) }
  else a

/-- The signal `ActionDockerRun.Notify` sends. -/
def ActionDockerRun.notifySignal (cfgSignal : Nat) (a : ActionDockerRun) : Nat :=
  match a.signal with
  | some s => s
  | none => cfgSignal

/-- `Action` from `src/action.go`: the four optional backends, an inline
filter, an optional ignore filter, a delay and lock names. -/
structure Action where
  httpGet : Option ActionHTTPGet := none
  exec : Option ActionExec := none
  shell : Option ActionShell := none
  dockerRun : Option ActionDockerRun := none
  filter : Filter := {}
  ignore : Option Filter := none
  Delay : String := ""
  locks : List String := []
deriving DecidableEq

/-- `Action.Match` from `src/action.go` lines 74–84: the action's own
filter is a soft gate (`all || any`); the ignore filter, when present,
suppresses only on a full match (`all && any`). -/
def Action.Match (fp : String → String → Option Bool) (a : Action) (e : Event) : Bool :=
  let m := a.filter.Match fp e
  if !(m.1 || m.2) then false
  else
    match a.ignore with
    | some ig =>
      let mi := ig.Match fp e
      if mi.1 && mi.2 then false else true
    | none => true

/-- `configuration` from `src/configuration.go` and
`src/unnamed/part_000`, reduced to the fields `shouldNotify`/`onEvent`
read. -/
structure Config where
  filter : Filter := {}
  ignores : List Filter := []
  ignoreWatch : List String := []
  env : List (String × String) := []
  actions : List Action := []
  Delay : String := ""
  Signal : String := ""
deriving DecidableEq

/-- `shouldNotify` from `src/main.go`: the session-wide suppression
gates — global filter (`all || any`), global ignore filters
(`all && any`), raw ignore globs (`filepath.Match`, errors skipped). -/
def shouldNotify (fp : String → String → Option Bool) (c : Config) (e : Event) : Bool :=
  let m := c.filter.Match fp e
  if !(m.1 || m.2) then false
  else if c.ignores.any (fun f => let mi := f.Match fp e; mi.1 && mi.2) then false
  else if c.ignoreWatch.any (fun pat => (fp pat e.Name).getD false) then false
  else true

/-- The actions `onEvent` (`src/main.go` lines 384–391) delivers the
event to: none when `shouldNotify` fails, otherwise exactly those whose
`Action.Match` accepts it. -/
def triggeredActions (fp : String → String → Option Bool) (c : Config) (e : Event) :
    List Action :=
  if shouldNotify fp c e then c.actions.filter (fun a => a.Match fp e) else []

/-! ### The lock registry (`src/unnamed/part_001`)

`Locks` holds `Map map[string]*sync.Mutex`. The registry state is a map
from names to the held/free state of the name's mutex (`none`: no entry;
`some true`: present and held; `some false`: present and free). The
functions give the state after the call has returned. -/

/-- The per-name body of `Locks.Lock`: take the registry write-lock,
insert a fresh mutex when the name is unknown, release the registry
lock, acquire the name's mutex. After the call the name is present and
held. -/
def lockOne (st : String → Option Bool) (name : String) : String → Option Bool :=
  fun n => if n = name then some true else st n

namespace Locks

/-- `Locks.Lock`: nothing on an empty name list; otherwise one acquiring
goroutine per name, all joined before returning. -/
def Lock (names : List String) (st : String → Option Bool) : String → Option Bool :=
  if names = [] then st else names.foldl lockOne st

/-- The per-name body of `Locks.Unlock`: when the name has an entry,
release its mutex; nothing is inserted or removed. -/
def unlockOne (st : String → Option Bool) (name : String) : String → Option Bool :=
  fun n => if n = name then
      match st name with
      | some _ => some false
      | none => none
    else st n

/-- `Locks.Unlock`: nothing on an empty name list; otherwise, under the
registry read-lock, release each named mutex that exists. -/
def Unlock (names : List String) (st : String → Option Bool) : String → Option Bool :=
  if names = [] then st else names.foldl unlockOne st

end Locks

/-! ### Shell-glob matching (specification side) -/

/-- Modelled from the spec: "Path matching uses shell-glob semantics
against the event's path" — the star/question-mark core of the external
collaborator `filepath.Match` (`*` and `?` do not cross a path
separator), written with a structural fuel argument so that it reduces:
every recursive call shrinks `pattern.length + name.length`, so any fuel
exceeding that sum gives the exact semantics. Used only as the
specification-side matcher; the code's `Filter.Match` takes its matcher
as a parameter and, as proved below, never depends on its result. -/
def globFuel : Nat → List Char → List Char → Bool
  | 0, _, _ => false
  | _ + 1, [], [] => true
  | _ + 1, [], _ :: _ => false
  | f + 1, '*' :: ps, [] => globFuel f ps []
  | f + 1, '*' :: ps, n :: ns =>
    globFuel f ps (n :: ns) || (!(n = '/') && globFuel f ('*' :: ps) ns)
  | f + 1, '?' :: ps, n :: ns => !(n = '/') && globFuel f ps ns
  | _ + 1, '?' :: _, [] => false
  | f + 1, c :: ps, n :: ns => (c = n) && globFuel f ps ns
  | _ + 1, _ :: _, [] => false

/-- Shell-glob matching with enough fuel to be exact. -/
def glob (p n : List Char) : Bool := globFuel (p.length + n.length + 1) p n

/-- `glob` on strings, in the `Option Bool` shape of the `filepath.Match`
collaborator parameter (patterns here never fail). -/
def globMatch (pattern name : String) : Option Bool := some (glob pattern.data name.data)

/-! ### The per-action run pipeline (`src/main.go` lines 140–187)

One action's runtime, as set up by `watchContext`:

* `run := make(chan struct{}, 1); run <- struct{}{}` — a capacity-one
  run-request channel holding one token at start (`pending`);
* a run goroutine `for range run { action.Run(ctx) }` — its program
  counter is `running` (`true` while inside `Run`), and `runs` counts
  the `Run` invocations it has started;
* an intake goroutine: on each triggering event it debounces, calls
  `action.Notify(e)` (counted by `notified`) and then runs
  `select { case <-run: run <- struct{}{} ; default: run <- struct{}{} }`.
-/

/-- The runtime state of one action's goroutine pair. -/
structure RunState where
  pending : Nat
  running : Bool
  runs : Nat
  notified : Nat
deriving DecidableEq

/-- The state after `watchContext` set the action up: one token in `run`,
the run goroutine not yet inside `Run`. -/
def initRunState : RunState := { pending := 1, running := false, runs := 0, notified := 0 }

/-- The intake goroutine's handling of one triggering event:
`action.Notify(e)`, then the `select` — when a token sits in `run` it is
taken and put back (no change), otherwise one token is sent. -/
def intakeStep (s : RunState) : RunState :=
  { s with
    notified := s.notified + 1,
    pending := if s.pending ≥ 1 then s.pending else s.pending + 1 }

/-- The three transitions of the pair. -/
inductive RunStep where
  | start
  | finish
  | trigger
deriving DecidableEq

/-- One transition: `start` is the run goroutine receiving a token from
`run` and entering `action.Run`; `finish` is `Run` returning; `trigger`
is the intake goroutine processing one event. `none` when the transition
is not enabled. -/
def stepFn : RunStep → RunState → Option RunState
  | .start, s =>
    if s.pending ≥ 1 ∧ s.running = false then
      some { s with pending := s.pending - 1, running := true, runs := s.runs + 1 }
    else none
  | .finish, s => if s.running then some { s with running := false } else none
  | .trigger, s => some (intakeStep s)

/-- The states one action's pipeline can reach. -/
inductive Reach : RunState → Prop where
  | init : Reach initRunState
  | step : ∀ (s s' : RunState) (t : RunStep), Reach s → stepFn t s = some s' → Reach s'

/-! ### Delay canonicalisation (`src/configuration.go` lines 58–67,
`src/action.go` lines 56–59)

Durations are `int64` nanosecond counts; `time.Millisecond = 10^6`.
`fmt.Sprint` on a duration and `time.ParseDuration` are standard-library
collaborators, passed as the parameters `durString` and `parseDur`
(`parseDur` returns `none` for an error, in which case the code keeps a
zero duration: `c.delay, _ = time.ParseDuration(c.Delay)`). -/

/-- Two's-complement wrap-around of Go `int64` arithmetic. -/
def int64wrap (x : Int) : Int := (x + 2 ^ 63) % 2 ^ 64 - 2 ^ 63

/-- Go `strconv.ParseInt(s, 10, 64)`: an optional sign, then decimal
digits (code points 48–57), rejected when empty or out of the signed
64-bit range. -/
def parseGoInt (s : String) : Option Int :=
  let signDigits : Bool × List Char :=
    match s.data with
    | c :: rest =>
      if c.toNat = 43 then (false, rest)
      else if c.toNat = 45 then (true, rest)
      else (false, s.data)
    | [] => (false, [])
  let neg := signDigits.1
  let ds := signDigits.2
  if ds = [] then none
  else if ds.all (fun c => 48 ≤ c.toNat && c.toNat ≤ 57) then
    let m : Nat := ds.foldl (fun a c => 10 * a + (c.toNat - 48)) 0
    if neg then (if m ≤ 2 ^ 63 then some (-(m : Int)) else none)
    else (if m ≤ 2 ^ 63 - 1 then some ((m : Int)) else none)
  else none

/-- The delay-string rewrite shared by `configuration.makeCanonical` and
`Action.makeCanonical`: when the delay field parses as a plain integer
`n`, replace it with `fmt.Sprint(time.Millisecond * time.Duration(n))`. -/
def canonDelayStr (durString : Int → String) (s : String) : String :=
  match parseGoInt s with
  | some n => durString (int64wrap (1000000 * n))
  | none => s

/-- `delay, _ = time.ParseDuration(s)`: the parsed duration, zero on error. -/
def canonDelayDur (parseDur : String → Option Int) (s : String) : Int :=
  (parseDur s).getD 0

/-- The delay part of `configuration.makeCanonical`: the rewritten
`Delay` string and the parsed `delay` duration. -/
def configCanonDelay (durString : Int → String) (parseDur : String → Option Int)
    (cfgDelay : String) : String × Int :=
  let d := canonDelayStr durString cfgDelay
  (d, canonDelayDur parseDur d)

/-- The per-action delay: `if c.Actions[i].Delay == "" { c.Actions[i].Delay
= c.Delay }` followed by the delay part of `Action.makeCanonical`. -/
def actionCanonDelay (durString : Int → String) (parseDur : String → Option Int)
    (cfgDelayStr : String) (aDelay : String) : Int :=
  let ad := if aDelay = "" then cfgDelayStr else aDelay
  canonDelayDur parseDur (canonDelayStr durString ad)

/-! ## Helper lemmas -/

/-- The path loop of `Filter.Match` never changes an accumulator that is
already `true`: both of its branches yield `true`. -/
theorem pathsLoop_true (ok : String → String → Bool) (name : String) :
    ∀ ps : List String, pathsLoop ok name ps true = true := by
  intro ps
  induction ps with
  | nil => rfl
  | cons p rest ih =>
    by_cases h : ok p name <;> simp [pathsLoop, h, ih]

theorem foldl_lockOne_isSome (names : List String) :
    ∀ (st : String → Option Bool) (n : String),
      ((names.foldl lockOne st) n).isSome = (decide (n ∈ names) || (st n).isSome) := by
  induction names with
  | nil => intro st n; simp
  | cons x xs ih =>
    intro st n
    rw [List.foldl_cons, ih]
    by_cases h : n = x
    · subst h; simp [lockOne]
    · simp [lockOne, h]

theorem unlockOne_isSome (st : String → Option Bool) (name n : String) :
    ((Locks.unlockOne st name) n).isSome = (st n).isSome := by
  unfold Locks.unlockOne
  by_cases h : n = name
  · subst h; cases hs : st n <;> simp [hs]
  · simp [h]

theorem foldl_unlockOne_isSome (names : List String) :
    ∀ (st : String → Option Bool) (n : String),
      ((names.foldl Locks.unlockOne st) n).isSome = (st n).isSome := by
  induction names with
  | nil => intro st n; rfl
  | cons x xs ih => intro st n; rw [List.foldl_cons, ih, unlockOne_isSome]

/-! ## C6 — the lock registry's map only grows -/

/-- C6: the name-to-mutex map of the lock registry only ever grows.
After `Lock(names)` a name has an entry exactly when it was requested or
already present — in particular every requested name is a key afterwards
and no entry is removed — and `Unlock` neither inserts nor deletes
entries. (Which mutex object sits behind a key is not modelled; the code
inserts a fresh mutex for an unknown name and keeps the existing one
otherwise.) -/
theorem c6 : ∀ (names : List String) (st : String → Option Bool) (n : String),
    ((Locks.Lock names st) n).isSome = (decide (n ∈ names) || (st n).isSome)
    ∧ ((Locks.Unlock names st) n).isSome = (st n).isSome := by
  intro names st n
  constructor
  · unfold Locks.Lock
    by_cases h : names = []
    · subst h; simp
    · rw [if_neg h, foldl_lockOne_isSome]
  · unfold Locks.Unlock
    by_cases h : names = []
    · subst h; simp
    · rw [if_neg h, foldl_unlockOne_isSome]

/-! ## C5 — signal resolution -/

/-- C5 counterexample: when the configuration's signal name is absent
(or unrecognised), `configuration.makeCanonical` resolves the global
signal to `syscall.SIGHUP`, not to the KILL-equivalent `defaultSignal`
used for action-level fallback. -/
theorem c5_counterexample :
    configCanonSignal ("") = sigHUP
    ∧ configCanonSignal ("SIGDOESNOTEXIST") = sigHUP
    ∧ sigHUP ≠ defaultSignal := by decide

/-- C5 amended: for the Exec, Shell and ContainerRun backends the signal
delivered by `Notify` is the action-level override when the action's
`signal` field is non-empty (an unrecognised action-level name defaults
to the KILL-equivalent `defaultSignal`), and otherwise the globally
configured signal — which, when the configuration's signal name is
absent or unrecognised, is `SIGHUP`, not the KILL-equivalent default. -/
theorem c5_amended : ∀ (cfgName aName : String),
    ActionExec.notifySignal (configCanonSignal cfgName)
        (ActionExec.makeCanonical { Signal := aName })
      = (if aName = "" then (parseSignal cfgName).getD sigHUP
         else (parseSignal aName).getD defaultSignal)
    ∧ ActionShell.notifySignal (configCanonSignal cfgName)
        (ActionShell.makeCanonical { Signal := aName })
      = (if aName = "" then (parseSignal cfgName).getD sigHUP
         else (parseSignal aName).getD defaultSignal)
    ∧ ActionDockerRun.notifySignal (configCanonSignal cfgName)
        (ActionDockerRun.makeCanonical { Signal := aName })
      = (if aName = "" then (parseSignal cfgName).getD sigHUP
         else (parseSignal aName).getD defaultSignal) := by
  intro cfgName aName
  have hc : configCanonSignal cfgName = (parseSignal cfgName).getD sigHUP := by
    unfold configCanonSignal
    cases parseSignal cfgName <;> rfl
  refine ⟨?_, ?_, ?_⟩
  · by_cases h : aName = "" <;>
      simp [ActionExec.makeCanonical, ActionExec.notifySignal, h, hc]
  · by_cases h : aName = "" <;>
      simp [ActionShell.makeCanonical, ActionShell.notifySignal, h, hc]
  · by_cases h : aName = "" <;>
      simp [ActionDockerRun.makeCanonical, ActionDockerRun.notifySignal, h, hc]

/-! ## C9 — empty commands are silent no-ops -/

/-- C9: `Run` of the Exec backend with an empty command list, and of the
Shell backend with an empty command string, returns a nil error at once
and sets up no process. -/
theorem c9 : ∀ (runner : Cmd → Option String) (environ : List String)
    (cfgEnv : List (String × String)) (dShell : String) (dShellArgs : List String)
    (a : ActionExec) (b : ActionShell),
    a.Command = [] → b.Command = "" →
    ActionExec.Run runner environ cfgEnv a = (none, none)
    ∧ ActionShell.Run runner environ cfgEnv dShell dShellArgs b = (none, none) := by
  intro runner environ cfgEnv dShell dShellArgs a b ha hb
  constructor
  · unfold ActionExec.Run; rw [ha]
  · unfold ActionShell.Run; rw [if_pos hb]

/-- C9 witness: the two empty-command backends at concrete inputs. -/
theorem c9_witness :
    ActionExec.Run (fun _ => none) [] [] ({} : ActionExec) = (none, none)
    ∧ ActionShell.Run (fun _ => none) [] [] ("sh") ["-c"] ({} : ActionShell) = (none, none) :=
  c9 (fun _ => none) [] [] ("sh") ["-c"] {} {} rfl rfl

/-! ## C3 — the path predicate ignores the glob result -/

/-- C3: the code's path predicate is broken. In the `Filter.Match` loop
the result of `filepath.Match` is discarded (`pathsOK` already starts
`true` and both loop branches leave it `true`), so a filter configured
only with path patterns reports `any = true` for every event and every
matcher — here concretely for the pattern list `["*.go"]` and the path
`"main.txt"`, which no pattern shell-glob-matches. -/
theorem c3_paths_bug :
    glob ("*.go").data ("main.txt").data = false
    ∧ (∀ (fp : String → String → Option Bool) (e : Event),
        ((Filter.makeCanonical { Paths := ["*.go"] }).Match fp e).2 = true) := by
  constructor
  · decide
  · intro fp e
    have hc : Filter.makeCanonical { Paths := ["*.go"] } = ({ Paths := ["*.go"] } : Filter) := by
      decide
    rw [hc]
    simp [Filter.Match, pathsLoop_true]

/-! ## C4 — the run slot -/

/-- C4 counterexample: the state with one run in flight and no pending
run request is reachable (the startup token starts run one); a trigger
arriving there deposits a pending run request (`pending` goes `0 → 1`),
and the state in which a second `Run` has started — after only that one
trigger — is reachable. So a trigger arriving while a run is in flight
is queued as an additional (later) run, contradicting the claim. -/
theorem c4_counterexample :
    Reach { pending := 0, running := true, runs := 1, notified := 0 }
    ∧ (intakeStep { pending := 0, running := true, runs := 1, notified := 0 }).pending = 1
    ∧ Reach { pending := 0, running := true, runs := 2, notified := 1 } := by
  have h1 : Reach { pending := 0, running := true, runs := 1, notified := 0 } :=
    Reach.step _ _ .start Reach.init (by decide)
  have h2 : Reach { pending := 1, running := true, runs := 1, notified := 1 } :=
    Reach.step _ _ .trigger h1 (by decide)
  have h3 : Reach { pending := 1, running := false, runs := 1, notified := 1 } :=
    Reach.step _ _ .finish h2 (by decide)
  have h4 : Reach { pending := 0, running := true, runs := 2, notified := 1 } :=
    Reach.step _ _ .start h3 (by decide)
  exact ⟨h1, by decide, h4⟩

/-- C4 amended: for every action, runs are serialised (the single run
goroutine is either waiting or inside one `Run`, so no two invocations
overlap), and in every reachable state at most one run request is
pending. Every trigger notifies the backend; a trigger arriving while a
request is already pending coalesces (pending stays one); a trigger
arriving while a run is in flight with nothing pending deposits exactly
one pending request — one follow-up `Run` after the current one, never a
concurrent one. -/
theorem c4_amended : ∀ (s : RunState), Reach s →
    s.pending ≤ 1
    ∧ (intakeStep s).notified = s.notified + 1
    ∧ (s.pending = 1 → (intakeStep s).pending = 1)
    ∧ (s.running = true → s.pending = 0 → (intakeStep s).pending = 1) := by
  intro s hs
  have hp : s.pending ≤ 1 := by
    induction hs with
    | init => decide
    | step s1 s1' t h hstep ih =>
      cases t with
      | start =>
        simp only [stepFn] at hstep
        split at hstep
        · cases hstep; simp; omega
        · cases hstep
      | finish =>
        simp only [stepFn] at hstep
        split at hstep
        · cases hstep; simpa using ih
        · cases hstep
      | trigger =>
        simp only [stepFn] at hstep
        cases hstep
        simp only [intakeStep]
        split
        · exact ih
        · omega
  refine ⟨hp, rfl, ?_, ?_⟩
  · intro h1; simp [intakeStep, h1]
  · intro _ h0; simp [intakeStep, h0]

/-- C4 witness: the invariants at the initial state. -/
theorem c4_witness :
    initRunState.pending ≤ 1
    ∧ (intakeStep initRunState).notified = initRunState.notified + 1
    ∧ (initRunState.pending = 1 → (intakeStep initRunState).pending = 1)
    ∧ (initRunState.running = true → initRunState.pending = 0 →
        (intakeStep initRunState).pending = 1) :=
  c4_amended initRunState Reach.init

/-! ## C2 — the `all` result -/

/-- Specification-side reading: the filter has no predicates configured. -/
def Filter.noPreds (f : Filter) : Prop :=
  f.extensions = none ∧ f.ops = none ∧ f.Paths = []

/-- Specification-side reading: the extension predicate is configured and
satisfied by the event. -/
def Filter.extSat (f : Filter) (e : Event) : Prop :=
  ∃ l, f.extensions = some l ∧ goToLower (ext e.Name) ∈ l

/-- Specification-side reading: the operation predicate is configured and
satisfied by the event. -/
def Filter.opSat (f : Filter) (e : Event) : Prop :=
  ∃ l, f.ops = some l ∧ e.Op ∈ l

/-- C2 counterexample: a filter configured only with extensions, on an
event whose extension matches, yields `all = false` — the code's `all`
conjoins all three predicate families, and the unconfigured operation
predicate is never satisfied. The claim says `all = true` here. -/
theorem c2_counterexample :
    (Filter.makeCanonical { Extensions := ["go"] }).extensions = some ["go"]
    ∧ (Filter.makeCanonical { Extensions := ["go"] }).ops = none
    ∧ (Filter.makeCanonical { Extensions := ["go"] }).Paths = []
    ∧ ext ("main.go") = "go"
    ∧ ((Filter.makeCanonical { Extensions := ["go"] }).Match (fun _ _ => none)
        { Name := "main.go", Op := fsWrite }).1 = false := by
  refine ⟨by decide, by decide, by decide, by decide, by decide⟩

/-- C2 amended: `all` is true iff the filter has no predicates configured
at all, or all three predicate families hold at once — the extension
predicate is configured and satisfied, the operation predicate is
configured and satisfied, and the path-pattern list is non-empty. In
particular a filter configured only with extensions returns `all = false`
on every event. -/
theorem c2_amended : ∀ (fp : String → String → Option Bool) (f : Filter) (e : Event),
    ((f.Match fp e).1 = true) ↔
      (f.noPreds ∨ (f.extSat e ∧ f.opSat e ∧ f.Paths ≠ [])) := by
  intro fp f e
  unfold Filter.Match Filter.noPreds Filter.extSat Filter.opSat
  cases hx : f.extensions with
  | none => cases ho : f.ops <;> cases hp : f.Paths <;> simp [hx, ho, hp]
  | some lx =>
    cases ho : f.ops with
    | none => cases hp : f.Paths <;> simp [hx, ho, hp]
    | some lo =>
      cases hp : f.Paths with
      | nil => simp [hx, ho, hp]
      | cons q qs =>
        simp [hx, ho, hp, pathsLoop_true]

/-! ## C7 — malformed operation names -/

/-- C7 counterexample: canonicalising a filter whose operation list is
the single malformed name `"explode"` (alongside extension `"go"`)
neither rejects the configuration nor substitutes any default operation:
the name is silently dropped, leaving a configured-but-empty operation
set, while the extension part of the filter takes effect. -/
theorem c7_counterexample :
    (Filter.makeCanonical { Ops := ["explode"], Extensions := ["go"] }).ops = some []
    ∧ (Filter.makeCanonical { Ops := ["explode"], Extensions := ["go"] }).extensions
        = some ["go"] := by
  refine ⟨by decide, by decide⟩

/-- C7 amended: a malformed operation name in a filter's operation list
is silently discarded at load time while the rest of the filter takes
effect: after canonicalisation an operation is in the ops set iff some
listed name parses to it, the ops predicate counts as configured iff the
list was non-empty (so an all-malformed list yields an empty set that
matches no event), and the configured extensions are unaffected by the
operation list. Loading never rejects and never substitutes a default. -/
theorem c7_amended : ∀ (l es : List String) (op : Nat),
    ((op ∈ ((Filter.makeCanonical { Ops := l }).ops.getD [])) ↔
      (∃ s ∈ l, parseOp (goTrimSpace s) = some op))
    ∧ ((Filter.makeCanonical { Ops := l }).ops.isSome = !l.isEmpty)
    ∧ ((Filter.makeCanonical { Ops := l, Extensions := es }).extensions
        = (Filter.makeCanonical { Extensions := es }).extensions) := by
  intro l es op
  refine ⟨?_, ?_, ?_⟩
  · cases l with
    | nil => simp [Filter.makeCanonical]
    | cons x xs => simp [Filter.makeCanonical, List.mem_filterMap]
  · cases l with
    | nil => simp [Filter.makeCanonical]
    | cons x xs => simp [Filter.makeCanonical]
  · cases l with
    | nil => rfl
    | cons x xs =>
      cases es with
      | nil => simp [Filter.makeCanonical]
      | cons y ys => simp [Filter.makeCanonical]

/-! ## C1 — per-action gating on events that pass the global gates -/

/-- `Action.Match` characterised by the two gates of the claim. -/
theorem action_match_iff (fp : String → String → Option Bool) (a : Action) (e : Event) :
    a.Match fp e = true ↔
      (((a.filter.Match fp e).1 || (a.filter.Match fp e).2) = true
       ∧ ∀ ig, a.ignore = some ig → ((ig.Match fp e).1 && (ig.Match fp e).2) = false) := by
  unfold Action.Match
  cases hig : a.ignore with
  | none =>
    by_cases hm : ((a.filter.Match fp e).1 || (a.filter.Match fp e).2) = true <;>
      simp [hig, hm]
  | some ig =>
    by_cases hm : ((a.filter.Match fp e).1 || (a.filter.Match fp e).2) = true
    · by_cases hi : ((ig.Match fp e).1 && (ig.Match fp e).2) = true
      · simp only [hig, hm, hi]
        simp only [Bool.and_eq_true] at hi
        simp [hi]
      · simp only [hig, hm]
        simp [hi]
        intro h1
        cases h2 : (ig.Match fp e).2
        · rfl
        · exact absurd (by rw [h1, h2]; rfl) hi
    · simp [hig, hm]

/-- C1: for an event that passes the global suppression gates, an action
receives the event iff its own filter's `Match` yields `all || any` and
its ignore filter, when present, does not yield `all && any` (a partial
ignore match does not suppress). -/
theorem c1 : ∀ (fp : String → String → Option Bool) (c : Config) (e : Event) (a : Action),
    shouldNotify fp c e = true →
    (a ∈ triggeredActions fp c e ↔
      (a ∈ c.actions
       ∧ ((a.filter.Match fp e).1 || (a.filter.Match fp e).2) = true
       ∧ ∀ ig, a.ignore = some ig → ((ig.Match fp e).1 && (ig.Match fp e).2) = false)) := by
  intro fp c e a h
  unfold triggeredActions
  rw [if_pos h, List.mem_filter, action_match_iff]

/-- C1 witness: a default action in a one-action configuration receives
a default event (the empty filter passes both the global gate and the
action gate). -/
theorem c1_witness :
    ({} : Action) ∈ triggeredActions (fun _ _ => none) ({ actions := [{}] } : Config)
      ({} : Event) :=
  (c1 (fun _ _ => none) { actions := [{}] } {} {} (by decide)).mpr
    ⟨by decide, by decide, fun ig h => by cases h⟩

/-! ## C10 — integer delays are milliseconds -/

theorem int64wrap_eq_self {x : Int} (h1 : -(2 ^ 63) ≤ x) (h2 : x < 2 ^ 63) :
    int64wrap x = x := by
  unfold int64wrap
  have h0 : (0 : Int) ≤ x + 2 ^ 63 := by omega
  have hlt : x + 2 ^ 63 < 2 ^ 64 := by omega
  rw [Int.emod_eq_of_lt h0 hlt]
  omega

/-- C10 counterexample: the delay specification `"4611686018427387904"`
(2^62) parses as a plain integer, but the Go conversion to a duration
multiplies by `time.Millisecond` in wrapping `int64` arithmetic, and
2^62 · 10^6 wraps to 0 — the resulting delay is 0, not 2^62
milliseconds. (The collaborators are instantiated at the one point used:
`fmt.Sprint(time.Duration(0))` is `"0s"` and `time.ParseDuration("0s")`
is 0.) -/
theorem c10_counterexample :
    parseGoInt ("4611686018427387904") = some 4611686018427387904
    ∧ int64wrap (1000000 * 4611686018427387904) = 0
    ∧ (configCanonDelay (fun d => if d = 0 then ("0s") else (""))
        (fun t => if t = "0s" then some 0 else none) ("4611686018427387904")).2 = 0
    ∧ (0 : Int) ≠ 1000000 * 4611686018427387904 := by
  refine ⟨by decide, by decide, by decide, by decide⟩

/-- C10 amended: a delay specification that parses as a plain integer
`n` is interpreted as `n` milliseconds — provided `10^6 · n` fits in a
signed 64-bit integer (otherwise the duration multiplication wraps) —
at the configuration level and at the per-action level, and a per-action
delay left empty inherits the configuration-level delay string before
this conversion. `durString`/`parseDur` are the standard-library
collaborators `fmt.Sprint` on durations and `time.ParseDuration`,
assumed only to round-trip the one duration involved and to render it
with a unit suffix (so it does not re-parse as a plain integer). -/
theorem c10_amended : ∀ (durString : Int → String) (parseDur : String → Option Int)
    (cfgStr s : String) (n : Int),
    parseGoInt s = some n →
    -(2 ^ 63) ≤ 1000000 * n →
    1000000 * n < 2 ^ 63 →
    parseDur (durString (1000000 * n)) = some (1000000 * n) →
    parseGoInt (durString (1000000 * n)) = none →
    (configCanonDelay durString parseDur s).2 = 1000000 * n
    ∧ actionCanonDelay durString parseDur (configCanonDelay durString parseDur s).1 ("")
        = 1000000 * n
    ∧ actionCanonDelay durString parseDur cfgStr s = 1000000 * n := by
  intro durString parseDur cfgStr s n hs hlo hhi hrt hni
  have hw : int64wrap (1000000 * n) = 1000000 * n := int64wrap_eq_self hlo hhi
  have hstr : canonDelayStr durString s = durString (1000000 * n) := by
    simp only [canonDelayStr, hs, hw]
  have hne : s ≠ "" := by
    intro h
    rw [h] at hs
    exact Option.noConfusion ((show parseGoInt ("") = (none : Option Int) from rfl).symm.trans hs)
  refine ⟨?_, ?_, ?_⟩
  · simp only [configCanonDelay, canonDelayDur, hstr, hrt, Option.getD_some]
  · simp [actionCanonDelay, configCanonDelay, canonDelayDur, canonDelayStr, hs, hw, hni, hrt]
  · simp [actionCanonDelay, canonDelayDur, canonDelayStr, hne, hs, hw, hrt]

/-- C10 witness: the delay specification `"5"` resolves to 5 ms at the
configuration level, for an action with an empty delay, and for an
action carrying `"5"` itself. -/
theorem c10_witness :
    (configCanonDelay (fun d => if d = 5000000 then ("5ms") else (""))
        (fun t => if t = "5ms" then some 5000000 else none) ("5")).2 = 1000000 * 5
    ∧ actionCanonDelay (fun d => if d = 5000000 then ("5ms") else (""))
        (fun t => if t = "5ms" then some 5000000 else none)
        (configCanonDelay (fun d => if d = 5000000 then ("5ms") else (""))
          (fun t => if t = "5ms" then some 5000000 else none) ("5")).1 ("") = 1000000 * 5
    ∧ actionCanonDelay (fun d => if d = 5000000 then ("5ms") else (""))
        (fun t => if t = "5ms" then some 5000000 else none) ("unused") ("5") = 1000000 * 5 :=
  c10_amended (fun d => if d = 5000000 then ("5ms") else (""))
    (fun t => if t = "5ms" then some 5000000 else none) ("unused") ("5") 5
    (by decide) (by decide) (by decide) (by decide) (by decide)

/-! ## C8 — extension matching is case-insensitive and ignores a leading dot -/

/-- Two characters are the same letter up to ASCII case: equal, or one is
the upper-case (65–90) form of the other (shifted by 32). -/
def lowerEquivChar (c d : Char) : Bool :=
  decide (c = d)
  || (decide (65 ≤ c.toNat) && decide (c.toNat ≤ 90) && decide (d.toNat = c.toNat + 32))
  || (decide (65 ≤ d.toNat) && decide (d.toNat ≤ 90) && decide (c.toNat = d.toNat + 32))

/-- Two character lists differ only in letter case: pointwise
`lowerEquivChar`. -/
def caseEqL : List Char → List Char → Bool
  | [], [] => true
  | c :: cs, d :: ds => lowerEquivChar c d && caseEqL cs ds
  | _, _ => false

theorem lowerEquivChar_elim {c d : Char} (h : lowerEquivChar c d = true) :
    c = d ∨ (65 ≤ c.toNat ∧ c.toNat ≤ 90 ∧ d.toNat = c.toNat + 32)
        ∨ (65 ≤ d.toNat ∧ d.toNat ≤ 90 ∧ c.toNat = d.toNat + 32) := by
  simp only [lowerEquivChar, Bool.or_eq_true, Bool.and_eq_true, decide_eq_true_eq] at h
  tauto

theorem toLowerChar_eq_of_lowerEquiv {c d : Char} (h : lowerEquivChar c d = true) :
    goToLowerChar c = goToLowerChar d := by
  rcases lowerEquivChar_elim h with hC | ⟨h1, h2, h3⟩ | ⟨h1, h2, h3⟩
  · rw [hC]
  · unfold goToLowerChar
    rw [if_pos ⟨h1, h2⟩, if_neg (by omega)]
    rw [← h3, Char.ofNat_toNat]
  · unfold goToLowerChar
    rw [if_neg (by omega), if_pos ⟨h1, h2⟩]
    rw [← h3, Char.ofNat_toNat]

/-- Characters below code point 65 (separators, dots, digits, spaces) are
identified by `lowerEquivChar`-related characters in the same way. -/
theorem toNat_low_iff {c d : Char} (h : lowerEquivChar c d = true) {k : Nat} (hk : k < 65) :
    (c.toNat = k) ↔ (d.toNat = k) := by
  rcases lowerEquivChar_elim h with hC | ⟨h1, h2, h3⟩ | ⟨h1, h2, h3⟩
  · rw [hC]
  · omega
  · omega

theorem caseEqL_nil_left {l : List Char} (h : caseEqL [] l = true) : l = [] := by
  cases l with
  | nil => rfl
  | cons d ds => simp [caseEqL] at h

theorem caseEqL_cons_left {c : Char} {cs l : List Char} (h : caseEqL (c :: cs) l = true) :
    ∃ d ds, l = d :: ds ∧ lowerEquivChar c d = true ∧ caseEqL cs ds = true := by
  cases l with
  | nil => simp [caseEqL] at h
  | cons d ds =>
    simp only [caseEqL, Bool.and_eq_true] at h
    exact ⟨d, ds, rfl, h.1, h.2⟩

theorem caseEqL_append {a b c d : List Char} (h1 : caseEqL a b = true)
    (h2 : caseEqL c d = true) : caseEqL (a ++ c) (b ++ d) = true := by
  induction a generalizing b with
  | nil => rw [caseEqL_nil_left h1]; simpa using h2
  | cons x xs ih =>
    obtain ⟨y, ys, rfl, hxy, hrest⟩ := caseEqL_cons_left h1
    simp only [List.cons_append, caseEqL, Bool.and_eq_true]
    exact ⟨hxy, ih hrest⟩

theorem caseEqL_reverse {a b : List Char} (h : caseEqL a b = true) :
    caseEqL a.reverse b.reverse = true := by
  induction a generalizing b with
  | nil => rw [caseEqL_nil_left h]; rfl
  | cons x xs ih =>
    obtain ⟨y, ys, rfl, hxy, hrest⟩ := caseEqL_cons_left h
    simp only [List.reverse_cons]
    exact caseEqL_append (ih hrest) (by simp [caseEqL, hxy])

theorem caseEqL_extScan {a b : List Char} (h : caseEqL a b = true) :
    ∀ {a2 b2 : List Char}, caseEqL a2 b2 = true →
      caseEqL (extScan a a2) (extScan b b2) = true := by
  induction a generalizing b with
  | nil =>
    intro a2 b2 _
    rw [caseEqL_nil_left h]
    rfl
  | cons x xs ih =>
    intro a2 b2 hacc
    obtain ⟨y, ys, rfl, hxy, hrest⟩ := caseEqL_cons_left h
    unfold extScan
    have h47 := toNat_low_iff hxy (k := 47) (by omega)
    have h46 := toNat_low_iff hxy (k := 46) (by omega)
    by_cases hx47 : x.toNat = 47
    · rw [if_pos hx47, if_pos (h47.mp hx47)]
      rfl
    · rw [if_neg hx47, if_neg (fun hy => hx47 (h47.mpr hy))]
      by_cases hx46 : x.toNat = 46
      · rw [if_pos hx46, if_pos (h46.mp hx46)]
        simp [caseEqL, hxy, hacc]
      · rw [if_neg hx46, if_neg (fun hy => hx46 (h46.mpr hy))]
        exact ih hrest (by simp [caseEqL, hxy, hacc])

theorem caseEqL_dropDot {a b : List Char} (h : caseEqL a b = true) :
    caseEqL (dropDotL a) (dropDotL b) = true := by
  cases a with
  | nil => rw [caseEqL_nil_left h]; rfl
  | cons x xs =>
    obtain ⟨y, ys, rfl, hxy, hrest⟩ := caseEqL_cons_left h
    rw [show dropDotL (x :: xs) = if x.toNat = 46 then xs else x :: xs from rfl,
        show dropDotL (y :: ys) = if y.toNat = 46 then ys else y :: ys from rfl]
    have h46 := toNat_low_iff hxy (k := 46) (by omega)
    by_cases hx46 : x.toNat = 46
    · rw [if_pos hx46, if_pos (h46.mp hx46)]
      exact hrest
    · rw [if_neg hx46, if_neg (fun hy => hx46 (h46.mpr hy))]
      simp [caseEqL, hxy, hrest]

theorem map_lower_eq {a b : List Char} (h : caseEqL a b = true) :
    a.map goToLowerChar = b.map goToLowerChar := by
  induction a generalizing b with
  | nil => rw [caseEqL_nil_left h]
  | cons x xs ih =>
    obtain ⟨y, ys, rfl, hxy, hrest⟩ := caseEqL_cons_left h
    simp only [List.map_cons]
    rw [toLowerChar_eq_of_lowerEquiv hxy, ih hrest]

/-- Paths that differ only in letter case have the same computed
(lower-cased, dot-stripped) extension. -/
theorem ext_eq_of_caseEq {p1 p2 : String} (h : caseEqL p1.data p2.data = true) :
    ext p1 = ext p2 :=
  congrArg String.mk
    (map_lower_eq (caseEqL_dropDot (caseEqL_extScan (caseEqL_reverse h) rfl)))

theorem caseEqL_dropWhile_space {a b : List Char} (h : caseEqL a b = true) :
    caseEqL (a.dropWhile goIsSpace) (b.dropWhile goIsSpace) = true := by
  induction a generalizing b with
  | nil => rw [caseEqL_nil_left h]; rfl
  | cons x xs ih =>
    obtain ⟨y, ys, rfl, hxy, hrest⟩ := caseEqL_cons_left h
    have hsp : goIsSpace x = goIsSpace y := by
      unfold goIsSpace
      rw [decide_eq_decide]
      rcases lowerEquivChar_elim hxy with hC | ⟨h1, h2, h3⟩ | ⟨h1, h2, h3⟩
      · rw [hC]
      · omega
      · omega
    rw [List.dropWhile_cons, List.dropWhile_cons, ← hsp]
    by_cases hx : goIsSpace x
    · rw [if_pos hx, if_pos hx]
      exact ih hrest
    · rw [if_neg hx, if_neg hx]
      simp [caseEqL, hxy, hrest]

theorem caseEqL_trimSpace {s1 s2 : String} (h : caseEqL s1.data s2.data = true) :
    caseEqL (goTrimSpace s1).data (goTrimSpace s2).data = true :=
  caseEqL_reverse (caseEqL_dropWhile_space (caseEqL_reverse (caseEqL_dropWhile_space h)))

/-- Configured extensions that differ only in letter case normalise to
the same canonical extension. -/
theorem normalizeExt_caseEq {s1 s2 : String} (h : caseEqL s1.data s2.data = true) :
    normalizeExt s1 = normalizeExt s2 :=
  congrArg String.mk (map_lower_eq (caseEqL_dropDot (caseEqL_trimSpace h)))

theorem dropWhile_of_head_not {p : Char → Bool} {l : List Char}
    (h : l.all (fun c => !p c) = true) : l.dropWhile p = l := by
  cases l with
  | nil => rfl
  | cons c cs =>
    simp only [List.all_cons, Bool.and_eq_true, Bool.not_eq_true'] at h
    rw [List.dropWhile_cons, if_neg (by simp [h.1])]

theorem trimSpace_of_all_not {s : String} (h : s.data.all (fun c => !goIsSpace c) = true) :
    goTrimSpace s = s := by
  unfold goTrimSpace
  rw [dropWhile_of_head_not h, dropWhile_of_head_not (by simpa using h), List.reverse_reverse]

theorem trimDot_of_head_not_dot {s : String} (h : s.data.head? ≠ some '.') :
    trimDot s = s := by
  unfold trimDot
  cases hd : s.data with
  | nil =>
    have : String.mk s.data = s := rfl
    rw [hd] at this
    rw [show dropDotL [] = [] from rfl, this]
  | cons c cs =>
    have hc : c.toNat ≠ 46 := by
      intro h46
      apply h
      rw [hd]
      have h1 := Char.ofNat_toNat c
      rw [h46] at h1
      have hcdot : c = '.' := by
        rw [← h1]
      rw [hcdot]
      rfl
    have hmk : String.mk s.data = s := rfl
    rw [hd] at hmk
    rw [show dropDotL (c :: cs) = c :: cs from by simp [dropDotL, hc], hmk]

theorem normalizeExt_dot {s : String} (h1 : s.data.all (fun c => !goIsSpace c) = true)
    (h2 : s.data.head? ≠ some '.') :
    normalizeExt (String.mk ('.' :: s.data)) = normalizeExt s := by
  unfold normalizeExt
  have hall : (String.mk ('.' :: s.data)).data.all (fun c => !goIsSpace c) = true := by
    show ('.' :: s.data).all (fun c => !goIsSpace c) = true
    rw [List.all_cons]
    simp only [Bool.and_eq_true]
    exact ⟨by decide, h1⟩
  rw [trimSpace_of_all_not hall, trimSpace_of_all_not h1]
  rw [show trimDot (String.mk ('.' :: s.data)) = String.mk s.data from rfl]
  rw [show String.mk s.data = s from rfl, trimDot_of_head_not_dot h2]

/-- The canonicalisation of a filter carrying a single configured
extension. -/
theorem canon_single_ext (x : String) :
    Filter.makeCanonical { Extensions := [x] } =
      { Extensions := [x], extensions := some [normalizeExt x] } := rfl

/-- `Filter.Match` reads only the canonical fields `extensions`, `ops`
and the path list. -/
theorem match_fields_congr (fp : String → String → Option Bool) (e : Event) {f g : Filter}
    (hext : f.extensions = g.extensions) (hops : f.ops = g.ops)
    (hpaths : f.Paths = g.Paths) : f.Match fp e = g.Match fp e := by
  unfold Filter.Match
  rw [hext, hops, hpaths]

/-- C8 conjunct 1 (helper): `Filter.Match` returns the same pair on two
events with the same operation whose paths differ only in letter case. -/
theorem match_caseEq (fp : String → String → Option Bool) (f : Filter) {e1 e2 : Event}
    (hop : e1.Op = e2.Op) (h : caseEqL e1.Name.data e2.Name.data = true) :
    f.Match fp e1 = f.Match fp e2 := by
  unfold Filter.Match
  rw [ext_eq_of_caseEq h, hop]
  by_cases hp : f.Paths.length > 0
  · simp [hp, pathsLoop_true]
  · simp [hp]

/-- C8: extension matching is case-insensitive and ignores a leading
dot. (1) For every filter, `Match` returns the same `(all, any)` on two
events with the same operation whose paths differ only in letter case —
in particular when only the extension's case differs. (2) Configuring a
single extension with a leading dot (for a bare extension: no
surrounding whitespace, no further leading dot) yields the same `Match`
behaviour as configuring it bare. (3) Configuring a single extension in
a different letter case yields the same `Match` behaviour. -/
theorem c8 :
    (∀ (fp : String → String → Option Bool) (f : Filter) (e1 e2 : Event),
      e1.Op = e2.Op → caseEqL e1.Name.data e2.Name.data = true →
      f.Match fp e1 = f.Match fp e2)
    ∧ (∀ (s : String) (fp : String → String → Option Bool) (e : Event),
      s.data.all (fun c => !goIsSpace c) = true → s.data.head? ≠ some '.' →
      (Filter.makeCanonical { Extensions := [String.mk ('.' :: s.data)] }).Match fp e
        = (Filter.makeCanonical { Extensions := [s] }).Match fp e)
    ∧ (∀ (s1 s2 : String) (fp : String → String → Option Bool) (e : Event),
      caseEqL s1.data s2.data = true →
      (Filter.makeCanonical { Extensions := [s1] }).Match fp e
        = (Filter.makeCanonical { Extensions := [s2] }).Match fp e) := by
  refine ⟨?_, ?_, ?_⟩
  · intro fp f e1 e2 hop h
    exact match_caseEq fp f hop h
  · intro s fp e h1 h2
    rw [canon_single_ext, canon_single_ext]
    exact match_fields_congr fp e (by rw [normalizeExt_dot h1 h2]) rfl rfl
  · intro s1 s2 fp e h
    rw [canon_single_ext, canon_single_ext]
    exact match_fields_congr fp e (by rw [normalizeExt_caseEq h]) rfl rfl

end Watchfs
